import Mathlib

/-!
Verification of the Mandelbrot renderer core: the fragment shader's escape
loop, colour mapping and screen-to-complex transform, and the React event
handlers for zooming and panning.  Shader floats are modelled as exact
rationals; loop state is passed explicitly with fuel mirroring the loop
bound of the GLSL `for` statement.
-/

namespace Mandelbrot

/-- `const int ABSOLUTE_MAX = 2000;` from `fragment_shader.glsl`. -/
def ABSOLUTE_MAX : ℕ := 2000

/-- Result of the escape-time evaluation: iteration count and escaped flag
(the data model's `EscapeResult`). -/
structure EscapeResult where
  iter : ℕ
  escaped : Bool
deriving DecidableEq

/-- One Mandelbrot update `z := z*z + c` as computed in the shader body:
`x = z.x*z.x - z.y*z.y + c.x; y = 2.0*z.x*z.y + c.y`. -/
def mandelStep (c z : ℚ × ℚ) : ℚ × ℚ :=
  (z.1 * z.1 - z.2 * z.2 + c.1, 2 * z.1 * z.2 + c.2)

/-- The `iter` left behind by the shader's loop
`for (int i = 0; i <= ABSOLUTE_MAX; i++) { if (i >= u_maxIterations) {iter = i; break;}
 ...; if (x*x + y*y > 4.0) {iter = i; break;} z = vec2(x, y); }`.
`fuel` is the number of loop-body entries still allowed by the loop bound
(`ABSOLUTE_MAX + 1 - i`); when it runs out the loop exits normally and
`iter` keeps its initial value `0`. -/
def shaderGo (c : ℚ × ℚ) (maxIter : ℕ) : ℕ → ℕ → ℚ × ℚ → ℕ
  | 0, _, _ => 0
  | fuel + 1, i, z =>
    if maxIter ≤ i then i
    else
      if 4 < (mandelStep c z).1 * (mandelStep c z).1 +
          (mandelStep c z).2 * (mandelStep c z).2 then i
      else shaderGo c maxIter fuel (i + 1) (mandelStep c z)

/-- The number of `z = z*z + c` update steps the same loop performs: 0 when
the `i >= u_maxIterations` break fires or the fuel is exhausted, and one per
body pass that computes `x` and `y`. -/
def shaderStepsGo (c : ℚ × ℚ) (maxIter : ℕ) : ℕ → ℕ → ℚ × ℚ → ℕ
  | 0, _, _ => 0
  | fuel + 1, i, z =>
    if maxIter ≤ i then 0
    else
      if 4 < (mandelStep c z).1 * (mandelStep c z).1 +
          (mandelStep c z).2 * (mandelStep c z).2 then 1
      else shaderStepsGo c maxIter fuel (i + 1) (mandelStep c z) + 1

/-- The `iter` value the shader's loop leaves behind, from `z = vec2(0.0)`
and `i = 0`. -/
def shaderIter (c : ℚ × ℚ) (maxIter : ℕ) : ℕ :=
  shaderGo c maxIter (ABSOLUTE_MAX + 1) 0 (0, 0)

/-- Number of `z = z*z + c` update steps the shader's loop performs. -/
def shaderSteps (c : ℚ × ℚ) (maxIter : ℕ) : ℕ :=
  shaderStepsGo c maxIter (ABSOLUTE_MAX + 1) 0 (0, 0)

/-- The escape evaluation the shader implements: the loop's `iter` together
with the escaped flag; the shader paints black exactly when
`iter >= u_maxIterations`, so `escaped` is `iter < maxIter`. -/
def shaderEscape (c : ℚ × ℚ) (maxIter : ℕ) : EscapeResult :=
  ⟨shaderIter c maxIter, decide (shaderIter c maxIter < maxIter)⟩

/-- Modelled from the spec (section 4.2 reference algorithm), loop body:
`z = z*z + c; if |z|^2 > 4.0: return EscapeResult(iter, escaped=true); iter += 1`,
with `fuel = maxIter - iter` remaining passes; on exhaustion it returns
`EscapeResult(maxIter, escaped=false)` since `iter` has then reached `maxIter`. -/
def escapeSpecGo (c : ℚ × ℚ) : ℕ → ℕ → ℚ × ℚ → EscapeResult
  | 0, iter, _ => ⟨iter, false⟩
  | fuel + 1, iter, z =>
    if 4 < (mandelStep c z).1 * (mandelStep c z).1 +
        (mandelStep c z).2 * (mandelStep c z).2 then ⟨iter, true⟩
    else escapeSpecGo c fuel (iter + 1) (mandelStep c z)

/-- Modelled from the spec: `escape(c, maxIter)` of section 4.2, starting
from `z = 0+0i; iter = 0`. -/
def escapeSpec (c : ℚ × ℚ) (maxIter : ℕ) : EscapeResult :=
  escapeSpecGo c maxIter 0 (0, 0)

/-- GLSL `fract`. -/
def fract (x : ℚ) : ℚ := x - ⌊x⌋

/-- GLSL `clamp(x, lo, hi)`. -/
def glslClamp (x lo hi : ℚ) : ℚ := min hi (max lo x)

/-- GLSL `mix(a, b, t) = a*(1-t) + b*t`. -/
def glslMix (a b t : ℚ) : ℚ := a * (1 - t) + b * t

/-- The shader's `hsv2rgb`, componentwise:
`K = vec4(1.0, 2.0/3.0, 1.0/3.0, 3.0); p = abs(fract(c.xxx + K.xyz) * 6.0 - K.www);
 return c.z * mix(K.xxx, clamp(p - K.xxx, 0.0, 1.0), c.y);`. -/
def hsv2rgb (h s v : ℚ) : ℚ × ℚ × ℚ :=
  (v * glslMix 1 (glslClamp (|fract (h + 1) * 6 - 3| - 1) 0 1) s,
   v * glslMix 1 (glslClamp (|fract (h + 2 / 3) * 6 - 3| - 1) 0 1) s,
   v * glslMix 1 (glslClamp (|fract (h + 1 / 3) * 6 - 3| - 1) 0 1) s)

/-- The tail of the shader's `main`: black when `iter >= u_maxIterations`,
otherwise `hue = float(iter) / 50.0` and
`hsv2rgb(vec3(fract(hue + 0.95), 0.8, 1.0))`. -/
def shaderColor (iter maxIter : ℕ) : ℚ × ℚ × ℚ :=
  if maxIter ≤ iter then (0, 0, 0)
  else hsv2rgb (fract ((iter : ℚ) / 50 + 0.95)) 0.8 1

/-- Modelled from the spec: the standard sector-wise HSV to RGB conversion
(chroma `C = v*s`, `m = v - C`, sector `⌊6h⌋`). -/
def hsvToRgbStandard (h s v : ℚ) : ℚ × ℚ × ℚ :=
  let C := v * s
  let m := v - C
  let h6 := 6 * h
  if h6 < 1 then (C + m, C * h6 + m, m)
  else if h6 < 2 then (C * (2 - h6) + m, C + m, m)
  else if h6 < 3 then (m, C + m, C * (h6 - 2) + m)
  else if h6 < 4 then (m, C * (4 - h6) + m, C + m)
  else if h6 < 5 then (C * (h6 - 4) + m, m, C + m)
  else (C + m, m, C * (6 - h6) + m)

/-- The shader's screen-to-complex transform:
`vec2 c = vec2((gl_FragCoord.x / u_resolution.x * 4.0 * aspectRatio - 2.0 * aspectRatio) * u_zoom + u_center.x,
 -(gl_FragCoord.y / u_resolution.y * 4.0 - 2.0) * u_zoom + u_center.y)`
with `aspectRatio = u_resolution.x / u_resolution.y`. -/
def toComplex (resX resY zoom cx cy pixelX pixelY : ℚ) : ℚ × ℚ :=
  let aspectRatio := resX / resY
  ((pixelX / resX * 4 * aspectRatio - 2 * aspectRatio) * zoom + cx,
   -(pixelY / resY * 4 - 2) * zoom + cy)

/-- Modelled from the spec (section 4.1): `aspect = W / H;
re = (pixelX / W * 4 * aspect - 2 * aspect) * Z + cx;
im = -(pixelY / H * 4 - 2) * Z + cy`. -/
def toComplexSpec (w h z cx cy pixelX pixelY : ℚ) : ℚ × ℚ :=
  ((pixelX / w * 4 * (w / h) - 2 * (w / h)) * z + cx,
   -(pixelY / h * 4 - 2) * z + cy)

/-- `handleMouseWheel` from `Mandelbrot.tsx`:
`zoomFactor = event.deltaY > 0 ? 1.1 : 0.9;
 setZoom(prev => Math.max(0.000001, Math.min(2.0, prev * zoomFactor)))`. -/
def handleMouseWheel (deltaY zoom : ℚ) : ℚ :=
  let zoomFactor := if 0 < deltaY then 1.1 else 0.9
  max 0.000001 (min 2 (zoom * zoomFactor))

/-- Zoom after a finite sequence of wheel events with the given `deltaY`s. -/
def wheelSeq (zoom : ℚ) (deltas : List ℚ) : ℚ :=
  deltas.foldl (fun z d => handleMouseWheel d z) zoom

/-- `handleMouseMove` from `Mandelbrot.tsx` during a drag: the drag anchor is
`(startX, startY)` with recorded centre `(startCX, startCY)`;
`scaleX = 4*aspectRatio*zoom/width; scaleY = 4*zoom/height;
 deltaX = (clientX - start.x) * scaleX; deltaY = (clientY - start.y) * scaleY;
 setCenter(start.center - delta)`. -/
def handleMouseMove (startX startY startCX startCY zoom width height curX curY :
    ℚ) : ℚ × ℚ :=
  let aspectRatio := width / height
  let scaleX := 4 * aspectRatio * zoom / width
  let scaleY := 4 * zoom / height
  let deltaX := (curX - startX) * scaleX
  let deltaY := (curY - startY) * scaleY
  (startCX - deltaX, startCY - deltaY)

lemma shaderGo_eq_spec (c : ℚ × ℚ) (maxIter : ℕ) :
    ∀ (n F i : ℕ) (z : ℚ × ℚ), n < F → i + n = maxIter →
      shaderGo c maxIter F i z = (escapeSpecGo c n i z).iter := by
  intro n
  induction n with
  | zero =>
    intro F i z hF hi
    cases F with
    | zero => omega
    | succ f =>
      simp only [shaderGo, escapeSpecGo]
      rw [if_pos (by omega : maxIter ≤ i)]
  | succ n ih =>
    intro F i z hF hi
    cases F with
    | zero => omega
    | succ f =>
      simp only [shaderGo, escapeSpecGo]
      rw [if_neg (by omega : ¬ maxIter ≤ i)]
      by_cases hesc : 4 < (mandelStep c z).1 * (mandelStep c z).1 +
          (mandelStep c z).2 * (mandelStep c z).2
      · rw [if_pos hesc, if_pos hesc]
      · rw [if_neg hesc, if_neg hesc]
        exact ih f (i + 1) (mandelStep c z) (by omega) (by omega)

lemma escapeSpecGo_iter_of_not_escaped (c : ℚ × ℚ) :
    ∀ (n i : ℕ) (z : ℚ × ℚ), (escapeSpecGo c n i z).escaped = false →
      (escapeSpecGo c n i z).iter = i + n := by
  intro n
  induction n with
  | zero => intro i z _; simp [escapeSpecGo]
  | succ n ih =>
    intro i z h
    simp only [escapeSpecGo] at h ⊢
    by_cases hesc : 4 < (mandelStep c z).1 * (mandelStep c z).1 +
        (mandelStep c z).2 * (mandelStep c z).2
    · rw [if_pos hesc] at h
      exact absurd h (by simp)
    · rw [if_neg hesc] at h ⊢
      rw [ih (i + 1) (mandelStep c z) h]
      omega

lemma escapeSpecGo_iter_of_escaped (c : ℚ × ℚ) :
    ∀ (n i : ℕ) (z : ℚ × ℚ), (escapeSpecGo c n i z).escaped = true →
      (escapeSpecGo c n i z).iter < i + n := by
  intro n
  induction n with
  | zero => intro i z h; exact absurd h (by simp [escapeSpecGo])
  | succ n ih =>
    intro i z h
    simp only [escapeSpecGo] at h ⊢
    by_cases hesc : 4 < (mandelStep c z).1 * (mandelStep c z).1 +
        (mandelStep c z).2 * (mandelStep c z).2
    · rw [if_pos hesc]
      show i < i + (n + 1)
      omega
    · rw [if_neg hesc] at h ⊢
      have := ih (i + 1) (mandelStep c z) h
      omega

lemma shaderEscape_eq_escapeSpec (c : ℚ × ℚ) (m : ℕ) (hm : m ≤ ABSOLUTE_MAX) :
    shaderEscape c m = escapeSpec c m := by
  unfold shaderEscape escapeSpec
  have hiter : shaderIter c m = (escapeSpecGo c m 0 (0, 0)).iter := by
    unfold shaderIter
    exact shaderGo_eq_spec c m m (ABSOLUTE_MAX + 1) 0 (0, 0)
      (by unfold ABSOLUTE_MAX at hm ⊢; omega) (by omega)
  rw [show escapeSpecGo c m 0 (0, 0) = ⟨(escapeSpecGo c m 0 (0, 0)).iter,
    (escapeSpecGo c m 0 (0, 0)).escaped⟩ from rfl]
  cases hesc : (escapeSpecGo c m 0 (0, 0)).escaped with
  | false =>
    have h1 := escapeSpecGo_iter_of_not_escaped c m 0 (0, 0) hesc
    simp only [EscapeResult.mk.injEq]
    constructor
    · omega
    · have hlt : ¬ shaderIter c m < m := by omega
      simp [hlt]
  | true =>
    have h1 := escapeSpecGo_iter_of_escaped c m 0 (0, 0) hesc
    simp only [EscapeResult.mk.injEq]
    constructor
    · omega
    · have hlt : shaderIter c m < m := by omega
      simp [hlt]

/-- C1: for every complex input `c` and every `maxIter` in
`[1, ABSOLUTE_MAX]`, the shader's escape loop returns exactly the result of
the spec's sequential reference algorithm (same iteration count, same
escaped flag). -/
theorem escape_loop_refines_spec (c : ℚ × ℚ) (m : ℕ) (h1 : 1 ≤ m)
    (h2 : m ≤ ABSOLUTE_MAX) : shaderEscape c m = escapeSpec c m :=
  shaderEscape_eq_escapeSpec c m h2

theorem escape_loop_refines_spec_witness :
    1 ≤ 100 ∧ 100 ≤ ABSOLUTE_MAX ∧
      shaderEscape (2, 0) 100 = escapeSpec (2, 0) 100 :=
  ⟨by decide, by decide, escape_loop_refines_spec (2, 0) 100 (by decide)
    (by decide)⟩

lemma shaderStepsGo_le_sub (c : ℚ × ℚ) (maxIter : ℕ) :
    ∀ (F i : ℕ) (z : ℚ × ℚ), shaderStepsGo c maxIter F i z ≤ maxIter - i := by
  intro F
  induction F with
  | zero => intro i z; simp [shaderStepsGo]
  | succ f ih =>
    intro i z
    simp only [shaderStepsGo]
    by_cases hi : maxIter ≤ i
    · rw [if_pos hi]
      simp
    · rw [if_neg hi]
      by_cases hesc : 4 < (mandelStep c z).1 * (mandelStep c z).1 +
          (mandelStep c z).2 * (mandelStep c z).2
      · rw [if_pos hesc]
        show 1 ≤ maxIter - i
        omega
      · rw [if_neg hesc]
        have := ih (i + 1) (mandelStep c z)
        show shaderStepsGo c maxIter f (i + 1) (mandelStep c z) + 1 ≤
          maxIter - i
        omega

lemma shaderStepsGo_le_fuel (c : ℚ × ℚ) (maxIter : ℕ) :
    ∀ (F i : ℕ) (z : ℚ × ℚ), shaderStepsGo c maxIter F i z ≤ F := by
  intro F
  induction F with
  | zero => intro i z; simp [shaderStepsGo]
  | succ f ih =>
    intro i z
    simp only [shaderStepsGo]
    by_cases hi : maxIter ≤ i
    · rw [if_pos hi]
      simp
    · rw [if_neg hi]
      by_cases hesc : 4 < (mandelStep c z).1 * (mandelStep c z).1 +
          (mandelStep c z).2 * (mandelStep c z).2
      · rw [if_pos hesc]
        omega
      · rw [if_neg hesc]
        have := ih (i + 1) (mandelStep c z)
        show shaderStepsGo c maxIter f (i + 1) (mandelStep c z) + 1 ≤ f + 1
        omega

lemma shaderStepsGo_zero (maxIter : ℕ) :
    ∀ (F i : ℕ), i + F ≤ maxIter →
      shaderStepsGo (0, 0) maxIter F i (0, 0) = F := by
  intro F
  induction F with
  | zero => intro i _; simp [shaderStepsGo]
  | succ f ih =>
    intro i hF
    have hstep : mandelStep (0, 0) (0, 0) = (0, 0) := by
      simp [mandelStep]
    simp only [shaderStepsGo, hstep]
    rw [if_neg (by omega : ¬ maxIter ≤ i)]
    rw [if_neg (by norm_num :
      ¬ (4 : ℚ) < (0 : ℚ) * 0 + 0 * 0)]
    rw [ih (i + 1) (by omega)]

/-- C2 counterexample: at `c = 0` and `maxIter = ABSOLUTE_MAX + 1 = 2001`,
the shader's loop performs 2001 update steps, so it does iterate past
`ABSOLUTE_MAX = 2000`: the loop bound `i <= ABSOLUTE_MAX` admits
`ABSOLUTE_MAX + 1` body passes. -/
theorem escape_steps_exceed_absolute_max :
    ¬ shaderSteps (0, 0) (ABSOLUTE_MAX + 1) ≤ ABSOLUTE_MAX := by
  have h : shaderSteps (0, 0) (ABSOLUTE_MAX + 1) = ABSOLUTE_MAX + 1 := by
    unfold shaderSteps
    exact shaderStepsGo_zero (ABSOLUTE_MAX + 1) (ABSOLUTE_MAX + 1) 0 (by omega)
  rw [h]
  omega

/-- C2 amended: the shader's escape loop performs at most `maxIter` update
steps, and at most `ABSOLUTE_MAX + 1` update steps even when `maxIter`
exceeds `ABSOLUTE_MAX` (the loop counter never passes `ABSOLUTE_MAX`, but
the bound `i <= ABSOLUTE_MAX` allows one more iteration than
`ABSOLUTE_MAX`). -/
theorem escape_steps_bounded (c : ℚ × ℚ) (maxIter : ℕ) :
    shaderSteps c maxIter ≤ maxIter ∧
      shaderSteps c maxIter ≤ ABSOLUTE_MAX + 1 := by
  constructor
  · have := shaderStepsGo_le_sub c maxIter (ABSOLUTE_MAX + 1) 0 (0, 0)
    unfold shaderSteps
    omega
  · exact shaderStepsGo_le_fuel c maxIter (ABSOLUTE_MAX + 1) 0 (0, 0)

/-- C3: for `maxIter` in `[1, ABSOLUTE_MAX]`, the shader's escape result has
iteration count in `[0, maxIter]`, and `escaped = false` exactly when the
count equals `maxIter`. -/
theorem escape_result_invariants (c : ℚ × ℚ) (m : ℕ) (h1 : 1 ≤ m)
    (h2 : m ≤ ABSOLUTE_MAX) :
    0 ≤ (shaderEscape c m).iter ∧ (shaderEscape c m).iter ≤ m ∧
      ((shaderEscape c m).escaped = false ↔ (shaderEscape c m).iter = m) := by
  rw [shaderEscape_eq_escapeSpec c m h2]
  unfold escapeSpec
  refine ⟨Nat.zero_le _, ?_, ?_, ?_⟩
  · cases hesc : (escapeSpecGo c m 0 (0, 0)).escaped with
    | false =>
      have := escapeSpecGo_iter_of_not_escaped c m 0 (0, 0) hesc
      omega
    | true =>
      have := escapeSpecGo_iter_of_escaped c m 0 (0, 0) hesc
      omega
  · intro hesc
    have := escapeSpecGo_iter_of_not_escaped c m 0 (0, 0) hesc
    omega
  · intro hit
    cases hesc : (escapeSpecGo c m 0 (0, 0)).escaped with
    | false => rfl
    | true =>
      have := escapeSpecGo_iter_of_escaped c m 0 (0, 0) hesc
      omega

theorem escape_result_invariants_witness :
    1 ≤ 100 ∧ 100 ≤ ABSOLUTE_MAX ∧
      (0 ≤ (shaderEscape (2, 0) 100).iter ∧
        (shaderEscape (2, 0) 100).iter ≤ 100 ∧
        ((shaderEscape (2, 0) 100).escaped = false ↔
          (shaderEscape (2, 0) 100).iter = 100)) :=
  ⟨by decide, by decide, escape_result_invariants (2, 0) 100 (by decide)
    (by decide)⟩

lemma shaderGo_succ_escape (c : ℚ × ℚ) (maxIter f i : ℕ) (z : ℚ × ℚ)
    (hi : ¬ maxIter ≤ i)
    (hesc : 4 < (mandelStep c z).1 * (mandelStep c z).1 +
      (mandelStep c z).2 * (mandelStep c z).2) :
    shaderGo c maxIter (f + 1) i z = i := by
  simp only [shaderGo]
  rw [if_neg hi, if_pos hesc]

lemma shaderGo_succ_cont (c : ℚ × ℚ) (maxIter f i : ℕ) (z : ℚ × ℚ)
    (hi : ¬ maxIter ≤ i)
    (hesc : ¬ 4 < (mandelStep c z).1 * (mandelStep c z).1 +
      (mandelStep c z).2 * (mandelStep c z).2) :
    shaderGo c maxIter (f + 1) i z =
      shaderGo c maxIter f (i + 1) (mandelStep c z) := by
  simp only [shaderGo]
  rw [if_neg hi, if_neg hesc]

lemma shaderEscape_two : shaderEscape (2, 0) 100 = ⟨1, true⟩ := by
  have hm1 : mandelStep (2, 0) (0, 0) = (2, 0) := by
    norm_num [mandelStep]
  have hiter : shaderIter (2, 0) 100 = 1 := by
    unfold shaderIter ABSOLUTE_MAX
    rw [shaderGo_succ_cont _ _ _ _ _ (by omega) (by rw [hm1]; norm_num)]
    rw [hm1]
    rw [show (2000 : ℕ) = 1999 + 1 from rfl]
    rw [shaderGo_succ_escape _ _ _ _ _ (by omega) (by norm_num [mandelStep])]
  unfold shaderEscape
  rw [hiter]
  rfl

/-- C4 counterexample: `escape(2+0i, 100)` does not return iteration count
0: the code uses the strict comparison `>`, `|2|^2 = 4` is not `> 4`, so the
first check does not escape and the loop escapes on the second step. -/
theorem escape_two_iter_not_zero :
    ¬ ((shaderEscape (2, 0) 100).iter = 0 ∧
      (shaderEscape (2, 0) 100).escaped = true) := by
  rw [shaderEscape_two]
  simp

/-- C4 amended: `escape(2+0i, 100)` returns `escaped = true` with iteration
count 1: with the code's strict `>` test, `|z|^2 = 4` after the first step
does not escape, and the second step gives `z = 6` which does. -/
theorem escape_two_returns_iter_one : shaderEscape (2, 0) 100 = ⟨1, true⟩ :=
  shaderEscape_two

/-- C5: for positive resolution, the shader's screen-to-complex transform
returns exactly the spec's formula
`re = (pixelX / W * 4 * aspect - 2 * aspect) * Z + cx`,
`im = -(pixelY / H * 4 - 2) * Z + cy` with `aspect = W / H`; it is a pure
function of these inputs alone. -/
theorem to_complex_matches_spec (w h z cx cy px py : ℚ) (hw : 0 < w)
    (hh : 0 < h) :
    toComplex w h z cx cy px py = toComplexSpec w h z cx cy px py ∧
      toComplex w h z cx cy px py =
        ((px / w * 4 * (w / h) - 2 * (w / h)) * z + cx,
          -(py / h * 4 - 2) * z + cy) :=
  ⟨rfl, rfl⟩

theorem to_complex_matches_spec_witness :
    (0 : ℚ) < 800 ∧ (0 : ℚ) < 600 ∧
      (toComplex 800 600 0.5 (-0.5) 0 400 300 =
          toComplexSpec 800 600 0.5 (-0.5) 0 400 300 ∧
        toComplex 800 600 0.5 (-0.5) 0 400 300 =
          ((400 / 800 * 4 * (800 / 600) - 2 * (800 / 600)) * 0.5 + -0.5,
            -(300 / 600 * 4 - 2) * 0.5 + 0)) :=
  ⟨by norm_num, by norm_num,
    to_complex_matches_spec 800 600 0.5 (-0.5) 0 400 300 (by norm_num)
      (by norm_num)⟩

lemma handleMouseWheel_bounds (d z : ℚ) :
    0.000001 ≤ handleMouseWheel d z ∧ handleMouseWheel d z ≤ 2 := by
  unfold handleMouseWheel
  constructor
  · exact le_max_left _ _
  · exact max_le (by norm_num) (min_le_left _ _)

/-- C7: every wheel event multiplies zoom by 1.1 (`deltaY > 0`) or 0.9 and
clamps to `[1e-6, 2]`; starting from any zoom in `[1e-6, 2]`, after any
finite sequence of wheel events the zoom remains in `[1e-6, 2]`. -/
theorem wheel_zoom_clamped (zoom : ℚ) (deltas : List ℚ)
    (hlo : 0.000001 ≤ zoom) (hhi : zoom ≤ 2) :
    (∀ d z, handleMouseWheel d z =
      max 0.000001 (min 2 (z * (if 0 < d then 1.1 else 0.9)))) ∧
      0.000001 ≤ wheelSeq zoom deltas ∧ wheelSeq zoom deltas ≤ 2 := by
  refine ⟨fun d z => rfl, ?_⟩
  induction deltas generalizing zoom with
  | nil => exact ⟨hlo, hhi⟩
  | cons d ds ih =>
    have hb := handleMouseWheel_bounds d zoom
    exact ih (handleMouseWheel d zoom) hb.1 hb.2

theorem wheel_zoom_clamped_witness :
    (0.000001 : ℚ) ≤ 0.5 ∧ (0.5 : ℚ) ≤ 2 ∧
      ((∀ d z, handleMouseWheel d z =
        max 0.000001 (min 2 (z * (if 0 < d then 1.1 else 0.9)))) ∧
        0.000001 ≤ wheelSeq 0.5 [1, -1, 1] ∧ wheelSeq 0.5 [1, -1, 1] ≤ 2) :=
  ⟨by norm_num, by norm_num,
    wheel_zoom_clamped 0.5 [1, -1, 1] (by norm_num) (by norm_num)⟩

/-- C8: during a drag, every pointer-move sets the centre to
`anchorCenter - (current - anchor) * scale` with
`scaleX = 4*aspect*zoom/width`, `scaleY = 4*zoom/height`; a move from
anchor (100,100) to (150,130) shifts the centre by exactly
`-(50, 30) * scale`, and a move back to the anchor leaves the centre
unchanged. -/
theorem drag_moves_center (ax ay cx cy zoom w h curX curY : ℚ) :
    handleMouseMove ax ay cx cy zoom w h curX curY =
        (cx - (curX - ax) * (4 * (w / h) * zoom / w),
          cy - (curY - ay) * (4 * zoom / h)) ∧
      handleMouseMove 100 100 cx cy zoom w h 150 130 =
        (cx - 50 * (4 * (w / h) * zoom / w),
          cy - 30 * (4 * zoom / h)) ∧
      handleMouseMove ax ay cx cy zoom w h ax ay = (cx, cy) := by
  refine ⟨rfl, ?_, ?_⟩
  · unfold handleMouseMove
    norm_num
  · unfold handleMouseMove
    simp

lemma fract_eq_intFract (x : ℚ) : fract x = Int.fract x := rfl

lemma fract_of_mem (x : ℚ) (h0 : 0 ≤ x) (h1 : x < 1) : fract x = x := by
  rw [fract_eq_intFract, Int.fract_eq_self.mpr ⟨h0, h1⟩]

lemma fract_sub_one (x : ℚ) (h0 : 1 ≤ x) (h1 : x < 2) : fract x = x - 1 := by
  rw [fract_eq_intFract]
  have hx : Int.fract x = Int.fract (x - 1 + ((1 : ℤ) : ℚ)) := by
    norm_num
  rw [hx, Int.fract_add_int, Int.fract_eq_self.mpr ⟨by linarith, by linarith⟩]

lemma fract_nonneg_lt_one (x : ℚ) : 0 ≤ fract x ∧ fract x < 1 := by
  rw [fract_eq_intFract]
  exact ⟨Int.fract_nonneg x, Int.fract_lt_one x⟩

lemma hsv2rgb_eq_standard (h s v : ℚ) (hh0 : 0 ≤ h) (hh1 : h < 1) :
    hsv2rgb h s v = hsvToRgbStandard h s v := by
  have hR : fract (h + 1) = h := by
    rw [fract_sub_one (h + 1) (by linarith) (by linarith)]
    ring
  rcases lt_or_le h (1 / 6) with hc | hc
  · have hG : fract (h + 2 / 3) = h + 2 / 3 :=
      fract_of_mem _ (by linarith) (by linarith)
    have hB : fract (h + 1 / 3) = h + 1 / 3 :=
      fract_of_mem _ (by linarith) (by linarith)
    simp only [hsv2rgb, hsvToRgbStandard, glslMix, glslClamp, hR, hG, hB]
    rw [if_pos (by linarith : 6 * h < 1)]
    simp only [Prod.mk.injEq]
    refine ⟨?_, ?_, ?_⟩
    · rw [abs_of_nonpos (by linarith : h * 6 - 3 ≤ 0),
        max_eq_right (by linarith : (0 : ℚ) ≤ -(h * 6 - 3) - 1),
        min_eq_left (by linarith : (1 : ℚ) ≤ -(h * 6 - 3) - 1)]
      ring
    · rw [abs_of_nonneg (by linarith : (0 : ℚ) ≤ (h + 2 / 3) * 6 - 3),
        max_eq_right (by linarith : (0 : ℚ) ≤ (h + 2 / 3) * 6 - 3 - 1),
        min_eq_right (by linarith : (h + 2 / 3) * 6 - 3 - 1 ≤ 1)]
      ring
    · rw [abs_of_nonpos (by linarith : (h + 1 / 3) * 6 - 3 ≤ 0),
        max_eq_left (by linarith : -((h + 1 / 3) * 6 - 3) - 1 ≤ 0),
        min_eq_right (by norm_num : (0 : ℚ) ≤ 1)]
      ring
  rcases lt_or_le h (1 / 3) with hd | hd
  · have hG : fract (h + 2 / 3) = h + 2 / 3 :=
      fract_of_mem _ (by linarith) (by linarith)
    have hB : fract (h + 1 / 3) = h + 1 / 3 :=
      fract_of_mem _ (by linarith) (by linarith)
    simp only [hsv2rgb, hsvToRgbStandard, glslMix, glslClamp, hR, hG, hB]
    rw [if_neg (by linarith : ¬ 6 * h < 1), if_pos (by linarith : 6 * h < 2)]
    simp only [Prod.mk.injEq]
    refine ⟨?_, ?_, ?_⟩
    · rw [abs_of_nonpos (by linarith : h * 6 - 3 ≤ 0),
        max_eq_right (by linarith : (0 : ℚ) ≤ -(h * 6 - 3) - 1),
        min_eq_right (by linarith : -(h * 6 - 3) - 1 ≤ 1)]
      ring
    · rw [abs_of_nonneg (by linarith : (0 : ℚ) ≤ (h + 2 / 3) * 6 - 3),
        max_eq_right (by linarith : (0 : ℚ) ≤ (h + 2 / 3) * 6 - 3 - 1),
        min_eq_left (by linarith : (1 : ℚ) ≤ (h + 2 / 3) * 6 - 3 - 1)]
      ring
    · rw [abs_of_nonneg (by linarith : (0 : ℚ) ≤ (h + 1 / 3) * 6 - 3),
        max_eq_left (by linarith : (h + 1 / 3) * 6 - 3 - 1 ≤ 0),
        min_eq_right (by norm_num : (0 : ℚ) ≤ 1)]
      ring
  rcases lt_or_le h (1 / 2) with he | he
  · have hG : fract (h + 2 / 3) = h + 2 / 3 - 1 :=
      fract_sub_one _ (by linarith) (by linarith)
    have hB : fract (h + 1 / 3) = h + 1 / 3 :=
      fract_of_mem _ (by linarith) (by linarith)
    simp only [hsv2rgb, hsvToRgbStandard, glslMix, glslClamp, hR, hG, hB]
    rw [if_neg (by linarith : ¬ 6 * h < 1), if_neg (by linarith : ¬ 6 * h < 2),
      if_pos (by linarith : 6 * h < 3)]
    simp only [Prod.mk.injEq]
    refine ⟨?_, ?_, ?_⟩
    · rw [abs_of_nonpos (by linarith : h * 6 - 3 ≤ 0),
        max_eq_left (by linarith : -(h * 6 - 3) - 1 ≤ 0),
        min_eq_right (by norm_num : (0 : ℚ) ≤ 1)]
      ring
    · rw [abs_of_nonpos (by linarith : (h + 2 / 3 - 1) * 6 - 3 ≤ 0),
        max_eq_right (by linarith : (0 : ℚ) ≤ -((h + 2 / 3 - 1) * 6 - 3) - 1),
        min_eq_left (by linarith : (1 : ℚ) ≤ -((h + 2 / 3 - 1) * 6 - 3) - 1)]
      ring
    · rw [abs_of_nonneg (by linarith : (0 : ℚ) ≤ (h + 1 / 3) * 6 - 3),
        max_eq_right (by linarith : (0 : ℚ) ≤ (h + 1 / 3) * 6 - 3 - 1),
        min_eq_right (by linarith : (h + 1 / 3) * 6 - 3 - 1 ≤ 1)]
      ring
  rcases lt_or_le h (2 / 3) with hf | hf
  · have hG : fract (h + 2 / 3) = h + 2 / 3 - 1 :=
      fract_sub_one _ (by linarith) (by linarith)
    have hB : fract (h + 1 / 3) = h + 1 / 3 :=
      fract_of_mem _ (by linarith) (by linarith)
    simp only [hsv2rgb, hsvToRgbStandard, glslMix, glslClamp, hR, hG, hB]
    rw [if_neg (by linarith : ¬ 6 * h < 1), if_neg (by linarith : ¬ 6 * h < 2),
      if_neg (by linarith : ¬ 6 * h < 3), if_pos (by linarith : 6 * h < 4)]
    simp only [Prod.mk.injEq]
    refine ⟨?_, ?_, ?_⟩
    · rw [abs_of_nonneg (by linarith : (0 : ℚ) ≤ h * 6 - 3),
        max_eq_left (by linarith : h * 6 - 3 - 1 ≤ 0),
        min_eq_right (by norm_num : (0 : ℚ) ≤ 1)]
      ring
    · rw [abs_of_nonpos (by linarith : (h + 2 / 3 - 1) * 6 - 3 ≤ 0),
        max_eq_right (by linarith : (0 : ℚ) ≤ -((h + 2 / 3 - 1) * 6 - 3) - 1),
        min_eq_right (by linarith : -((h + 2 / 3 - 1) * 6 - 3) - 1 ≤ 1)]
      ring
    · rw [abs_of_nonneg (by linarith : (0 : ℚ) ≤ (h + 1 / 3) * 6 - 3),
        max_eq_right (by linarith : (0 : ℚ) ≤ (h + 1 / 3) * 6 - 3 - 1),
        min_eq_left (by linarith : (1 : ℚ) ≤ (h + 1 / 3) * 6 - 3 - 1)]
      ring
  rcases lt_or_le h (5 / 6) with hg | hg
  · have hG : fract (h + 2 / 3) = h + 2 / 3 - 1 :=
      fract_sub_one _ (by linarith) (by linarith)
    have hB : fract (h + 1 / 3) = h + 1 / 3 - 1 :=
      fract_sub_one _ (by linarith) (by linarith)
    simp only [hsv2rgb, hsvToRgbStandard, glslMix, glslClamp, hR, hG, hB]
    rw [if_neg (by linarith : ¬ 6 * h < 1), if_neg (by linarith : ¬ 6 * h < 2),
      if_neg (by linarith : ¬ 6 * h < 3), if_neg (by linarith : ¬ 6 * h < 4),
      if_pos (by linarith : 6 * h < 5)]
    simp only [Prod.mk.injEq]
    refine ⟨?_, ?_, ?_⟩
    · rw [abs_of_nonneg (by linarith : (0 : ℚ) ≤ h * 6 - 3),
        max_eq_right (by linarith : (0 : ℚ) ≤ h * 6 - 3 - 1),
        min_eq_right (by linarith : h * 6 - 3 - 1 ≤ 1)]
      ring
    · rw [abs_of_nonpos (by linarith : (h + 2 / 3 - 1) * 6 - 3 ≤ 0),
        max_eq_left (by linarith : -((h + 2 / 3 - 1) * 6 - 3) - 1 ≤ 0),
        min_eq_right (by norm_num : (0 : ℚ) ≤ 1)]
      ring
    · rw [abs_of_nonpos (by linarith : (h + 1 / 3 - 1) * 6 - 3 ≤ 0),
        max_eq_right (by linarith : (0 : ℚ) ≤ -((h + 1 / 3 - 1) * 6 - 3) - 1),
        min_eq_left (by linarith : (1 : ℚ) ≤ -((h + 1 / 3 - 1) * 6 - 3) - 1)]
      ring
  · have hG : fract (h + 2 / 3) = h + 2 / 3 - 1 :=
      fract_sub_one _ (by linarith) (by linarith)
    have hB : fract (h + 1 / 3) = h + 1 / 3 - 1 :=
      fract_sub_one _ (by linarith) (by linarith)
    simp only [hsv2rgb, hsvToRgbStandard, glslMix, glslClamp, hR, hG, hB]
    rw [if_neg (by linarith : ¬ 6 * h < 1), if_neg (by linarith : ¬ 6 * h < 2),
      if_neg (by linarith : ¬ 6 * h < 3), if_neg (by linarith : ¬ 6 * h < 4),
      if_neg (by linarith : ¬ 6 * h < 5)]
    simp only [Prod.mk.injEq]
    refine ⟨?_, ?_, ?_⟩
    · rw [abs_of_nonneg (by linarith : (0 : ℚ) ≤ h * 6 - 3),
        max_eq_right (by linarith : (0 : ℚ) ≤ h * 6 - 3 - 1),
        min_eq_left (by linarith : (1 : ℚ) ≤ h * 6 - 3 - 1)]
      ring
    · rw [abs_of_nonneg (by linarith : (0 : ℚ) ≤ (h + 2 / 3 - 1) * 6 - 3),
        max_eq_left (by linarith : (h + 2 / 3 - 1) * 6 - 3 - 1 ≤ 0),
        min_eq_right (by norm_num : (0 : ℚ) ≤ 1)]
      ring
    · rw [abs_of_nonpos (by linarith : (h + 1 / 3 - 1) * 6 - 3 ≤ 0),
        max_eq_right (by linarith : (0 : ℚ) ≤ -((h + 1 / 3 - 1) * 6 - 3) - 1),
        min_eq_right (by linarith : -((h + 1 / 3 - 1) * 6 - 3) - 1 ≤ 1)]
      ring

/-- C6: an escape result consistent with the shader's black test
(`escaped` iff `iter < maxIterations`) is coloured solid black when
`escaped = false`, and otherwise gets the standard HSV to RGB conversion of
`hue = fract(iter / 50.0 + 0.95)`, saturation `0.8`, value `1.0`. -/
theorem colorize_black_or_standard_hsv (r : EscapeResult) (m : ℕ)
    (hr : r.escaped = decide (r.iter < m)) :
    (r.escaped = false → shaderColor r.iter m = (0, 0, 0)) ∧
      (r.escaped = true → shaderColor r.iter m =
        hsvToRgbStandard (fract ((r.iter : ℚ) / 50 + 0.95)) 0.8 1) := by
  constructor
  · intro hf
    rw [hf] at hr
    have hge : ¬ r.iter < m := of_decide_eq_false hr.symm
    unfold shaderColor
    rw [if_pos (by omega)]
  · intro ht
    rw [ht] at hr
    have hlt : r.iter < m := of_decide_eq_true hr.symm
    unfold shaderColor
    rw [if_neg (by omega)]
    have hb := fract_nonneg_lt_one ((r.iter : ℚ) / 50 + 0.95)
    exact hsv2rgb_eq_standard _ _ _ hb.1 hb.2

theorem colorize_black_or_standard_hsv_witness :
    ((true : Bool) = decide ((1 : ℕ) < 2)) ∧
      (((true : Bool) = false → shaderColor 1 2 = (0, 0, 0)) ∧
        ((true : Bool) = true → shaderColor 1 2 =
          hsvToRgbStandard (fract ((1 : ℚ) / 50 + 0.95)) 0.8 1)) :=
  ⟨by decide, colorize_black_or_standard_hsv ⟨1, true⟩ 2 (by decide)⟩

lemma clamp01_bounds (x : ℚ) : 0 ≤ glslClamp x 0 1 ∧ glslClamp x 0 1 ≤ 1 := by
  unfold glslClamp
  exact ⟨le_min (by norm_num) (le_max_left 0 x), min_le_left 1 _⟩

lemma hsv2rgb_channel_bounds (h : ℚ) :
    (0.2 ≤ (hsv2rgb h 0.8 1).1 ∧ (hsv2rgb h 0.8 1).1 ≤ 1) ∧
      (0.2 ≤ (hsv2rgb h 0.8 1).2.1 ∧ (hsv2rgb h 0.8 1).2.1 ≤ 1) ∧
      (0.2 ≤ (hsv2rgb h 0.8 1).2.2 ∧ (hsv2rgb h 0.8 1).2.2 ≤ 1) := by
  have e1 : (hsv2rgb h 0.8 1).1 =
      1 * glslMix 1 (glslClamp (|fract (h + 1) * 6 - 3| - 1) 0 1) 0.8 := rfl
  have e2 : (hsv2rgb h 0.8 1).2.1 =
      1 * glslMix 1 (glslClamp (|fract (h + 2 / 3) * 6 - 3| - 1) 0 1) 0.8 := rfl
  have e3 : (hsv2rgb h 0.8 1).2.2 =
      1 * glslMix 1 (glslClamp (|fract (h + 1 / 3) * 6 - 3| - 1) 0 1) 0.8 := rfl
  obtain ⟨a0, a1⟩ := clamp01_bounds (|fract (h + 1) * 6 - 3| - 1)
  obtain ⟨b0, b1⟩ := clamp01_bounds (|fract (h + 2 / 3) * 6 - 3| - 1)
  obtain ⟨c0, c1⟩ := clamp01_bounds (|fract (h + 1 / 3) * 6 - 3| - 1)
  rw [e1, e2, e3]
  unfold glslMix
  refine ⟨⟨by linarith, by linarith⟩, ⟨by linarith, by linarith⟩,
    by linarith, by linarith⟩

/-- C10: for every escaped result (`iter < maxIterations`), each RGB channel
of the shader's colour lies in `[0.2, 1.0]` (value `1.0`, saturation `0.8`
bound every channel below by `1.0 * (1 - 0.8)`), so an escaped pixel is
never solid black. -/
theorem escaped_color_channels_bounded (iter m : ℕ) (hlt : iter < m) :
    (0.2 ≤ (shaderColor iter m).1 ∧ (shaderColor iter m).1 ≤ 1) ∧
      (0.2 ≤ (shaderColor iter m).2.1 ∧ (shaderColor iter m).2.1 ≤ 1) ∧
      (0.2 ≤ (shaderColor iter m).2.2 ∧ (shaderColor iter m).2.2 ≤ 1) ∧
      shaderColor iter m ≠ (0, 0, 0) := by
  have hcol : shaderColor iter m =
      hsv2rgb (fract ((iter : ℚ) / 50 + 0.95)) 0.8 1 := by
    unfold shaderColor
    rw [if_neg (by omega : ¬ m ≤ iter)]
  have hb := hsv2rgb_channel_bounds (fract ((iter : ℚ) / 50 + 0.95))
  rw [hcol]
  refine ⟨hb.1, hb.2.1, hb.2.2, fun heq => ?_⟩
  have h1 := hb.1.1
  rw [heq] at h1
  norm_num at h1

theorem escaped_color_channels_bounded_witness :
    (0 : ℕ) < 100 ∧
      ((0.2 ≤ (shaderColor 0 100).1 ∧ (shaderColor 0 100).1 ≤ 1) ∧
        (0.2 ≤ (shaderColor 0 100).2.1 ∧ (shaderColor 0 100).2.1 ≤ 1) ∧
        (0.2 ≤ (shaderColor 0 100).2.2 ∧ (shaderColor 0 100).2.2 ≤ 1) ∧
        shaderColor 0 100 ≠ (0, 0, 0)) :=
  ⟨by decide, escaped_color_channels_bounded 0 100 (by decide)⟩

lemma shaderGo_neg_half :
    ∀ (F i : ℕ) (z : ℚ × ℚ), z.2 = 0 → -(1 / 2) ≤ z.1 → z.1 ≤ 0 →
      i ≤ 1000 → 1000 - i < F → shaderGo (-0.5, 0) 1000 F i z = 1000 := by
  intro F
  induction F with
  | zero => intro i z _ _ _ _ hF; omega
  | succ f ih =>
    intro i z hz2 hzl hzr hi hF
    by_cases hge : (1000 : ℕ) ≤ i
    · simp only [shaderGo]
      rw [if_pos hge]
      omega
    · have hx2 : z.1 * z.1 ≤ 1 / 4 := by
        nlinarith [mul_nonneg (by linarith : (0 : ℚ) ≤ z.1 + 1 / 2)
          (by linarith : (0 : ℚ) ≤ -z.1)]
      have hx0 : 0 ≤ z.1 * z.1 := mul_self_nonneg z.1
      have hw1 : (mandelStep (-0.5, 0) z).1 = z.1 * z.1 - 1 / 2 := by
        unfold mandelStep
        rw [hz2]
        norm_num
        ring
      have hw2 : (mandelStep (-0.5, 0) z).2 = 0 := by
        unfold mandelStep
        rw [hz2]
        norm_num
      have hesc : ¬ 4 < (mandelStep (-0.5, 0) z).1 *
          (mandelStep (-0.5, 0) z).1 +
          (mandelStep (-0.5, 0) z).2 * (mandelStep (-0.5, 0) z).2 := by
        rw [hw1, hw2]
        push_neg
        nlinarith [mul_nonneg hx0 (by linarith : (0 : ℚ) ≤ 1 / 4 - z.1 * z.1)]
      rw [shaderGo_succ_cont _ _ _ _ _ hge hesc]
      exact ih (i + 1) (mandelStep (-0.5, 0) z) hw2 (by rw [hw1]; linarith)
        (by rw [hw1]; linarith) (by omega) (by omega)

/-- C9: with zoom `0.5`, centre `(-0.5, 0)` and resolution `800×600`, the
screen-centre pixel `(400, 300)` maps exactly to the complex coordinate
`(-0.5, 0)`, and `escape((-0.5, 0), 1000)` does not escape, so the pixel is
coloured black. -/
theorem center_pixel_black :
    toComplex 800 600 0.5 (-0.5) 0 400 300 = (-0.5, 0) ∧
      (shaderEscape (-0.5, 0) 1000).escaped = false ∧
      shaderColor (shaderEscape (-0.5, 0) 1000).iter 1000 = (0, 0, 0) := by
  have hiter : shaderIter (-0.5, 0) 1000 = 1000 := by
    unfold shaderIter
    apply shaderGo_neg_half
    · norm_num
    · norm_num
    · norm_num
    · omega
    · unfold ABSOLUTE_MAX
      omega
  refine ⟨?_, ?_, ?_⟩
  · unfold toComplex
    simp only [Prod.mk.injEq]
    constructor <;> norm_num
  · show decide (shaderIter (-0.5, 0) 1000 < 1000) = false
    rw [hiter]
    simp
  · have hit : (shaderEscape (-0.5, 0) 1000).iter = 1000 := hiter
    rw [hit]
    unfold shaderColor
    rw [if_pos (le_refl 1000)]

end Mandelbrot
